import Mathlib

/-!
Shallow embedding of the rule-compilation and rule-execution engine of
`lib/rules/RuleSetCompiler.js` (a module bundler's rule compiler).

JavaScript values that can appear in an input record are modelled by
`Value`; `Value.undef` models `undefined`; objects carry their own
properties and (one level of) inherited prototype properties, since the
executor distinguishes `hasOwnProperty` from the `in` operator.
Effects and loader payloads are opaque to the engine; predicates and
effect generators are modelled as Lean functions.
-/

/-- A JavaScript value as seen by the rule engine.  `obj own proto`
models an object with its own enumerable properties `own` and the
properties `proto` inherited from its prototype chain. -/
inductive Value where
  | undef : Value
  | null : Value
  | boolV : Bool → Value
  | numV : Int → Value
  | str : String → Value
  | obj : List (String × Value) → List (String × Value) → Value

/-- First-match lookup in a property list (JS own-property access). -/
def lookupProp : List (String × Value) → String → Option Value
  | [], _ => none
  | (k, v) :: rest, key => if k == key then some v else lookupProp rest key

/-- The input record handed to `exec` (`data` in the source): a
JavaScript object, with own and inherited properties kept apart. -/
structure EffectData where
  own : List (String × Value)
  proto : List (String × Value)

/-- `p in data` followed by `data[p]`: visible when the key is an own
property or an inherited one; own properties shadow inherited ones. -/
def EffectData.getJS (d : EffectData) (k : String) : Option Value :=
  match lookupProp d.own k with
  | some v => some v
  | none => lookupProp d.proto k

/-- A condition's `property` field: a plain name or an array of nested
names (the source distinguishes them with `Array.isArray`). -/
inductive PropertyPath where
  | single : String → PropertyPath
  | multi : List String → PropertyPath

/-- A compiled rule condition (`RuleCondition` in the source). -/
structure RuleCondition where
  property : PropertyPath
  matchWhenEmpty : Bool
  fn : Value → Bool

/-- A compiled condition without a property (`Condition` in the source). -/
structure Condition where
  matchWhenEmpty : Bool
  fn : Value → Bool

/-- An effect: a tagged `(type, value)` pair whose meaning belongs to the
consuming build pipeline. -/
structure Effect where
  type : String
  value : Value

/-- An entry of a compiled rule's `effects` array: either a plain effect
object or a generator function (`typeof effect === "function"`). -/
inductive EffectEntry where
  | eff : Effect → EffectEntry
  | gen : (EffectData → List Effect) → EffectEntry

/-- A compiled rule: conditions, effects, optional `rules` group
(all-match) and optional `oneOf` group (first-match). -/
inductive CompiledRule where
  | mk : List RuleCondition → List EffectEntry →
      Option (List CompiledRule) → Option (List CompiledRule) → CompiledRule

def CompiledRule.conditions : CompiledRule → List RuleCondition
  | .mk c _ _ _ => c

def CompiledRule.effects : CompiledRule → List EffectEntry
  | .mk _ e _ _ => e

def CompiledRule.rules : CompiledRule → Option (List CompiledRule)
  | .mk _ _ r _ => r

def CompiledRule.oneOf : CompiledRule → Option (List CompiledRule)
  | .mk _ _ _ o => o

/-- The multi-segment walk of `execRule`: at every step the current value
must be a (truthy) object having the segment as an OWN property
(`Object.prototype.hasOwnProperty.call`); otherwise the result is
`undefined`. -/
def walkPath : Value → List String → Value
  | v, [] => v
  | Value.obj own _, s :: rest =>
    match lookupProp own s with
    | some v => walkPath v rest
    | none => Value.undef
  | _, _ :: _ => Value.undef

/-- Resolve a condition's property path against the input record, exactly
as the condition loop of `execRule` does: an array path walks own
properties; a plain name uses `p in data` (so inherited properties are
visible) and then reads `data[p]`. Absence is represented by
`Value.undef`. -/
def resolveProperty (d : EffectData) : PropertyPath → Value
  | .multi segs => walkPath (Value.obj d.own d.proto) segs
  | .single k =>
    match d.getJS k with
    | some v => v
    | none => Value.undef

/-- One iteration of the condition loop of `execRule`: a defined value is
tested with `condition.fn`; an absent (undefined) value falls back to
`matchWhenEmpty`. -/
def condPasses (d : EffectData) (c : RuleCondition) : Bool :=
  match resolveProperty d c.property with
  | Value.undef => c.matchWhenEmpty
  | v => c.fn v

/-- The condition loop of `execRule`: conditions in declared order, first
failure returns false. -/
def checkConditions (d : EffectData) : List RuleCondition → Bool
  | [] => true
  | c :: rest => if condPasses d c then checkConditions d rest else false

/-- The effect loop of `execRule`: static effects are pushed, generator
effects are invoked on the input record and their results pushed,
declaration order preserved. -/
def runEffects (d : EffectData) : List EffectEntry → List Effect
  | [] => []
  | .eff e :: rest => e :: runEffects d rest
  | .gen f :: rest => f d ++ runEffects d rest

mutual

/-- `execRule(data, rule, effects)` of the source, with the mutable
`effects` array made explicit: returns the matched flag and the array
after all pushes. -/
def execRule (d : EffectData) (rule : CompiledRule) (effects : List Effect) :
    Bool × List Effect :=
  match rule with
  | .mk conds effs subRules one =>
    if checkConditions d conds then
      let e1 := effects ++ runEffects d effs
      let e2 :=
        match subRules with
        | some rs => execSub d rs e1
        | none => e1
      let e3 :=
        match one with
        | some rs => execOneOf d rs e2
        | none => e2
      (true, e3)
    else
      (false, effects)

/-- The `rule.rules` loop of `execRule` (and the top-level loop of
`exec`): every child executed unconditionally, in order. -/
def execSub (d : EffectData) (rs : List CompiledRule) (effects : List Effect) :
    List Effect :=
  match rs with
  | [] => effects
  | r :: rest => execSub d rest (execRule d r effects).2

/-- The `rule.oneOf` loop of `execRule`: children in order, stop at the
first whose `execRule` returns true. -/
def execOneOf (d : EffectData) (rs : List CompiledRule) (effects : List Effect) :
    List Effect :=
  match rs with
  | [] => effects
  | r :: rest =>
    let res := execRule d r effects
    if res.1 then res.2 else execOneOf d rest res.2

end

/-- `exec` of the compiled rule set: run `execRule` against every
top-level rule, in order, appending into one shared effects array. -/
def exec (rules : List CompiledRule) (d : EffectData) : List Effect :=
  execSub d rules []

/-- `combineConditionsOr` of the source. -/
def combineConditionsOr (conditions : List Condition) : Condition :=
  match conditions with
  | [] => { matchWhenEmpty := false, fn := fun _ => false }
  | [c] => c
  | _ =>
    { matchWhenEmpty := conditions.any (fun c => c.matchWhenEmpty),
      fn := fun v => conditions.any (fun c => c.fn v) }

/-- `combineConditionsAnd` of the source. -/
def combineConditionsAnd (conditions : List Condition) : Condition :=
  match conditions with
  | [] => { matchWhenEmpty := false, fn := fun _ => false }
  | [c] => c
  | _ =>
    { matchWhenEmpty := conditions.all (fun c => c.matchWhenEmpty),
      fn := fun v => conditions.all (fun c => c.fn v) }

/-- A raw (user-authored) condition, covering every JavaScript shape the
source's `compileCondition` distinguishes.  A regular expression is
modelled by its `test` function on strings; a condition function by a
total Lean function (`fnC`); `numC`/`boolC`/`nullC` cover the primitive
values that hit the falsy check or the `Unexpected typeof` error. -/
inductive RawCondition where
  | str : String → RawCondition
  | numC : Int → RawCondition
  | boolC : Bool → RawCondition
  | nullC : RawCondition
  | fnC : (Value → Bool) → RawCondition
  | regexC : (String → Bool) → RawCondition
  | arr : List RawCondition → RawCondition
  | cobj : List (String × RawCondition) → RawCondition

/-- JavaScript truthiness of a raw condition value (`if (!condition)`,
`if (value)`). -/
def RawCondition.truthy : RawCondition → Bool
  | .str s => !(s == "")
  | .numC n => !(n == 0)
  | .boolC b => b
  | .nullC => false
  | _ => true

/-- JavaScript `typeof` of a raw condition value, used by the
`Unexpected typeof` compile error. -/
def RawCondition.jsTypeof : RawCondition → String
  | .str _ => "string"
  | .numC _ => "number"
  | .boolC _ => "boolean"
  | .nullC => "object"
  | .fnC _ => "function"
  | .regexC _ => "object"
  | .arr _ => "object"
  | .cobj _ => "object"

/-- Display-only approximation of JavaScript string conversion of a raw
condition, used for the `${value}` part of compile error messages (the
source prints functions and regexes with their source text, which has no
counterpart in this embedding). -/
def RawCondition.display : RawCondition → String
  | .str s => s
  | .numC n => toString n
  | .boolC b => if b then "true" else "false"
  | .nullC => "null"
  | .fnC _ => "function"
  | .regexC _ => "regex"
  | .arr _ => "array"
  | .cobj _ => "[object Object]"

/-- A compile error of the engine (`error(path, value, message)` in the
source): the path to the offending node, the stringified offending value
and the message. -/
structure CompileErr where
  path : String
  value : String
  message : String
deriving DecidableEq

/-- The single string the source's `error` helper builds. -/
def CompileErr.render (e : CompileErr) : String :=
  "Compiling RuleSet failed: " ++ e.message ++ " (at " ++ e.path ++ ": " ++
    e.value ++ ")"

/-- JavaScript `String.prototype.startsWith`, modelled on character
lists (`str.startsWith(condition)` in the source). -/
def jsStartsWith (t S : String) : Bool :=
  go S.data t.data
where
  go : List Char → List Char → Bool
    | [], _ => true
    | _ :: _, [] => false
    | a :: as, b :: bs => a == b && go as bs

mutual

/-- `compileCondition(path, condition)` of the source, with the thrown
compile errors made explicit in `Except`.  Branches in source order:
the empty string, the falsy check, strings, functions (whose
`matchWhenEmpty` probes the function at the empty string), regexes,
arrays (OR-combined), the non-object `typeof` error, and the
`or`/`and`/`not` object form. -/
def compileCondition (path : String) (condition : RawCondition) :
    Except CompileErr Condition :=
  match condition with
  | .str s =>
    if s == "" then
      .ok { matchWhenEmpty := true,
            fn := fun v => match v with | .str t => t == "" | _ => false }
    else
      .ok { matchWhenEmpty := s.length == 0,
            fn := fun v =>
              match v with | .str t => jsStartsWith t s | _ => false }
  | .numC n =>
    if n == 0 then
      .error ⟨path, RawCondition.display (.numC n),
        "Expected condition but got falsy value"⟩
    else
      .error ⟨path, RawCondition.display (.numC n),
        "Unexpected number when condition was expected"⟩
  | .boolC b =>
    if b then
      .error ⟨path, RawCondition.display (.boolC b),
        "Unexpected boolean when condition was expected"⟩
    else
      .error ⟨path, RawCondition.display (.boolC b),
        "Expected condition but got falsy value"⟩
  | .nullC =>
    .error ⟨path, RawCondition.display .nullC,
      "Expected condition but got falsy value"⟩
  | .fnC f =>
    .ok { matchWhenEmpty := f (Value.str ""), fn := f }
  | .regexC test =>
    .ok { matchWhenEmpty := test "",
          fn := fun v => match v with | .str t => test t | _ => false }
  | .arr items =>
    match compileConditionList path 0 items with
    | .error e => .error e
    | .ok cs => .ok (combineConditionsOr cs)
  | .cobj entries =>
    match compileObjEntries path entries with
    | .error e => .error e
    | .ok conditions =>
      if conditions.isEmpty then
        .error ⟨path, RawCondition.display (.cobj entries),
          "Expected condition, but got empty thing"⟩
      else
        .ok (combineConditionsAnd conditions)

/-- The array branch of `compileCondition`: compile each item at the
indexed sub-path. -/
def compileConditionList (path : String) (i : Nat) :
    List RawCondition → Except CompileErr (List Condition)
  | [] => .ok []
  | c :: rest =>
    match compileCondition (path ++ "[" ++ toString i ++ "]") c with
    | .error e => .error e
    | .ok c1 =>
      match compileConditionList path (i + 1) rest with
      | .error e => .error e
      | .ok cs => .ok (c1 :: cs)

/-- The key loop of the `or`/`and`/`not` object form of
`compileCondition`: keys in declaration order, falsy values skipped,
`or` compiles its array as one OR condition, `and` compiles each item,
`not` negates predicate and `matchWhenEmpty`, any other key is a compile
error. -/
def compileObjEntries (path : String) :
    List (String × RawCondition) → Except CompileErr (List Condition)
  | [] => .ok []
  | (key, value) :: rest =>
    if key == "or" then
      if value.truthy then
        match value with
        | .arr _ =>
          match compileCondition (path ++ ".or") value with
          | .error e => .error e
          | .ok c =>
            match compileObjEntries path rest with
            | .error e => .error e
            | .ok cs => .ok (c :: cs)
        | _ =>
          .error ⟨path ++ ".or", value.display, "Expected array of conditions"⟩
      else compileObjEntries path rest
    else if key == "and" then
      if value.truthy then
        match value with
        | .arr items =>
          match compileConditionList (path ++ ".and") 0 items with
          | .error e => .error e
          | .ok list =>
            match compileObjEntries path rest with
            | .error e => .error e
            | .ok cs => .ok (list ++ cs)
        | _ =>
          .error ⟨path ++ ".and", value.display, "Expected array of conditions"⟩
      else compileObjEntries path rest
    else if key == "not" then
      if value.truthy then
        match compileCondition (path ++ ".not") value with
        | .error e => .error e
        | .ok matcher =>
          match compileObjEntries path rest with
          | .error e => .error e
          | .ok cs =>
            .ok ({ matchWhenEmpty := !matcher.matchWhenEmpty,
                   fn := fun v => !matcher.fn v } :: cs)
      else compileObjEntries path rest
    else
      .error ⟨path ++ "." ++ key, value.display,
        "Unexpected property " ++ key ++ " in condition"⟩

end

mutual

/-- The value of one property of a raw rule object.  `undef` models
`undefined` (a key whose value is undefined is not collected into the
unhandled set); `falsyV` models the remaining falsy primitives;
`arrV` models an array of rule entries; `strV`/`otherV` model the
defined non-array values the `rules`/`oneOf` array check rejects. -/
inductive RawRuleVal where
  | undef : RawRuleVal
  | falsyV : RawRuleVal
  | strV : String → RawRuleVal
  | otherV : RawRuleVal
  | arrV : List RawRuleEntry → RawRuleVal

/-- An entry of a raw rule list: falsy entries are allowed and dropped
by `compileRules` (`rules.filter(Boolean)`), the "disabled rule"
convention. -/
inductive RawRuleEntry where
  | falsy : RawRuleEntry
  | rule : RawRule → RawRuleEntry

/-- A raw (user-authored) rule object: its properties in declaration
order. -/
inductive RawRule where
  | mk : List (String × RawRuleVal) → RawRule

end

def RawRule.props : RawRule → List (String × RawRuleVal)
  | .mk ps => ps

/-- JavaScript property access `rule[key]` on a raw rule: the first
binding, or `undefined` when the key is absent. -/
def RawRule.get (rule : RawRule) (key : String) : RawRuleVal :=
  go rule.props
where
  go : List (String × RawRuleVal) → RawRuleVal
    | [] => .undef
    | (k, v) :: rest => if k == key then v else go rest

def RawRuleVal.isUndefined : RawRuleVal → Bool
  | .undef => true
  | _ => false

def RawRuleVal.isArray : RawRuleVal → Bool
  | .arrV _ => true
  | _ => false

/-- Display-only approximation of JavaScript string conversion of a raw
rule value, for the `${value}` part of compile error messages. -/
def RawRuleVal.display : RawRuleVal → String
  | .undef => "undefined"
  | .falsyV => "false"
  | .strV s => s
  | .otherV => "[object Object]"
  | .arrV _ => "array"

/-- Display-only approximation of JavaScript string conversion of a raw
rule, for the `${value}` part of compile error messages. -/
def RawRule.display : RawRule → String
  | .mk _ => "[object Object]"

/-- The initial unhandled-property set of `compileRule`: the keys of the
raw rule whose values are defined, in declaration order. -/
def RawRule.definedKeys (rule : RawRule) : List String :=
  (rule.props.filter (fun kv => !kv.2.isUndefined)).map (fun kv => kv.1)

/-- The reference map threaded through compilation (payloads opaque). -/
abbrev References := List (String × String)

/-- The `hooks.rule` interception point of `compileRule`: the registered
plugins run synchronously over `(path, rule, unhandledProperties,
compiledRule, references)` and may update the last three. -/
abbrev Hook :=
  String → RawRule → List String → CompiledRule → References →
    List String × CompiledRule × References

/-- The hook with no registered plugins: a no-op. -/
def noHook : Hook := fun _ _ unhandled compiled refs => (unhandled, compiled, refs)

def CompiledRule.setRules : CompiledRule → Option (List CompiledRule) → CompiledRule
  | .mk c e _ o, r => .mk c e r o

def CompiledRule.setOneOf : CompiledRule → Option (List CompiledRule) → CompiledRule
  | .mk c e r _, o => .mk c e r o

theorem sizeOf_get_go_lt (key : String) :
    ∀ props : List (String × RawRuleVal), sizeOf (RawRule.get.go key props) < 1 + sizeOf props
  | [] => by simp [RawRule.get.go]
  | (k, v) :: rest => by
    simp only [RawRule.get.go]
    by_cases h : (k == key) = true
    · simp only [h, if_true]
      simp
      omega
    · simp only [h, if_false]
      have := sizeOf_get_go_lt key rest
      simp
      omega

/-- The value at a key of a raw rule is structurally smaller than the
rule (used for termination of the recursive rule compiler). -/
theorem sizeOf_get_lt (rule : RawRule) (key : String) :
    sizeOf (rule.get key) < sizeOf rule := by
  match rule with
  | .mk props =>
    have := sizeOf_get_go_lt key props
    simp only [RawRule.get, RawRule.props]
    simp
    omega

mutual

/-- `compileRule(path, rule, refs)` of the source: collect the defined
keys as unhandled, run the plugin hook, then handle a still-unhandled
`rules` key (must be an array, compiled recursively at sub-path
`.rules`), then a still-unhandled `oneOf` key likewise, and reject any
remaining unhandled keys. -/
def compileRule (hook : Hook) (path : String) (rule : RawRule)
    (refs : References) : Except CompileErr (CompiledRule × References) :=
  match hook path rule rule.definedKeys (CompiledRule.mk [] [] none none) refs with
  | (unhandled1, compiled1, refs1) =>
    match hStep1 :
      (if unhandled1.contains "rules" then
        match hGet : rule.get "rules" with
        | .arrV entries =>
          match compileRulesGo hook (path ++ ".rules") 0 entries refs1 with
          | .error e => Except.error e
          | .ok (children, refs2) =>
            Except.ok (unhandled1.filter (fun k => !(k == "rules")),
              compiled1.setRules (some children), refs2)
        | v =>
          Except.error ⟨path, v.display, "Rule.rules must be an array of rules"⟩
      else Except.ok (unhandled1, compiled1, refs1)) with
    | .error e => .error e
    | .ok (unhandled2, compiled2, refs2) =>
      match hStep2 :
        (if unhandled2.contains "oneOf" then
          match hGet2 : rule.get "oneOf" with
          | .arrV entries =>
            match compileRulesGo hook (path ++ ".oneOf") 0 entries refs2 with
            | .error e => Except.error e
            | .ok (children, refs3) =>
              Except.ok (unhandled2.filter (fun k => !(k == "oneOf")),
                compiled2.setOneOf (some children), refs3)
          | v =>
            Except.error ⟨path, v.display, "Rule.oneOf must be an array of rules"⟩
        else Except.ok (unhandled2, compiled2, refs2)) with
      | .error e => .error e
      | .ok (unhandled3, compiled3, refs3) =>
        if unhandled3.isEmpty then
          .ok (compiled3, refs3)
        else
          .error ⟨path, rule.display,
            "Properties " ++ String.intercalate ", " unhandled3 ++ " are unknown"⟩
termination_by sizeOf rule
decreasing_by
  all_goals simp_wf
  all_goals first
    | (have h := sizeOf_get_lt rule "rules"; rw [hGet] at h; simp at h; omega)
    | (have h := sizeOf_get_lt rule "oneOf"; rw [hGet2] at h; simp at h; omega)

/-- `compileRules(path, rules, refs)` of the source, fused with the
`filter(Boolean)` step: falsy entries are dropped, the remaining rules
are compiled in order with post-filter indices in their sub-paths. -/
def compileRulesGo (hook : Hook) (path : String) (i : Nat)
    (entries : List RawRuleEntry) (refs : References) :
    Except CompileErr (List CompiledRule × References) :=
  match entries with
  | [] => .ok ([], refs)
  | .falsy :: rest => compileRulesGo hook path i rest refs
  | .rule r :: rest =>
    match compileRule hook (path ++ "[" ++ toString i ++ "]") r refs with
    | .error e => .error e
    | .ok (c, refs1) =>
      match compileRulesGo hook path (i + 1) rest refs1 with
      | .error e => .error e
      | .ok (cs, refs2) => .ok (c :: cs, refs2)
termination_by sizeOf entries
decreasing_by
  all_goals simp_wf
  all_goals omega

end

/-- `compileRules("ruleSet", ruleSet, refs)` as called from `compile`. -/
def compileRules (hook : Hook) (ruleSet : List RawRuleEntry) :
    Except CompileErr (List CompiledRule × References) :=
  compileRulesGo hook "ruleSet" 0 ruleSet []

/-- `compile(ruleSet)` of the source: compile the rule list once, and
expose the reference map together with the executor closure. -/
def compileRuleSet (hook : Hook) (ruleSet : List RawRuleEntry) :
    Except CompileErr (References × (EffectData → List Effect)) :=
  match compileRules hook ruleSet with
  | .error e => .error e
  | .ok (rules, refs) => .ok (refs, fun data => exec rules data)

/-! ### Basic lemmas about the executor -/

/-- The short-circuiting condition loop agrees with `List.all`. -/
theorem checkConditions_eq_all (d : EffectData) (cs : List RuleCondition) :
    checkConditions d cs = cs.all (condPasses d) := by
  induction cs with
  | nil => rfl
  | cons c rest ih =>
    simp only [checkConditions, List.all_cons, ih]
    by_cases h : condPasses d c
    · simp [h]
    · simp [h]

/-- Unfolding equation for `execRule` with the rule's fields exposed. -/
theorem execRule_def (d : EffectData) (conds : List RuleCondition)
    (effs : List EffectEntry) (sub one : Option (List CompiledRule))
    (effects : List Effect) :
    execRule d (.mk conds effs sub one) effects =
      if checkConditions d conds then
        (true,
          match one with
          | some rs =>
            execOneOf d rs
              (match sub with
               | some rs2 => execSub d rs2 (effects ++ runEffects d effs)
               | none => effects ++ runEffects d effs)
          | none =>
            match sub with
            | some rs2 => execSub d rs2 (effects ++ runEffects d effs)
            | none => effects ++ runEffects d effs)
      else (false, effects) := by
  rw [execRule]

theorem execAppend_all (d : EffectData) (n : Nat) :
    (∀ r : CompiledRule, sizeOf r ≤ n → ∀ effects,
      execRule d r effects = ((execRule d r []).1, effects ++ (execRule d r []).2)) ∧
    (∀ rs : List CompiledRule, sizeOf rs ≤ n → ∀ effects,
      execSub d rs effects = effects ++ execSub d rs []) ∧
    (∀ rs : List CompiledRule, sizeOf rs ≤ n → ∀ effects,
      execOneOf d rs effects = effects ++ execOneOf d rs []) := by
  induction n with
  | zero =>
    refine ⟨fun r hr => ?_, fun rs hrs => ?_, fun rs hrs => ?_⟩
    · obtain ⟨c, e, s, o⟩ := r
      simp at hr
    · cases rs with
      | nil => intro effects; simp [execSub]
      | cons r rest => simp at hrs
    · cases rs with
      | nil => intro effects; simp [execOneOf]
      | cons r rest => simp at hrs
  | succ n ih =>
    obtain ⟨ihRule, ihSub, ihOne⟩ := ih
    refine ⟨fun r hr effects => ?_, fun rs hrs effects => ?_, fun rs hrs effects => ?_⟩
    · obtain ⟨conds, effs, sub, one⟩ := r
      simp only [CompiledRule.mk.sizeOf_spec] at hr
      by_cases h : checkConditions d conds = true
      · cases sub with
        | none =>
          cases one with
          | none =>
            rw [execRule_def d conds effs none none effects,
              execRule_def d conds effs none none []]
            simp [h]
          | some os =>
            have hos : sizeOf os ≤ n := by simp at hr; omega
            have hOs := ihOne os hos (effects ++ runEffects d effs)
            have hOs0 := ihOne os hos (runEffects d effs)
            rw [execRule_def d conds effs none (some os) effects,
              execRule_def d conds effs none (some os) []]
            simp [h, hOs, hOs0]
        | some ss =>
          have hss : sizeOf ss ≤ n := by simp at hr; omega
          cases one with
          | none =>
            have hSs := ihSub ss hss (effects ++ runEffects d effs)
            have hSs0 := ihSub ss hss (runEffects d effs)
            rw [execRule_def d conds effs (some ss) none effects,
              execRule_def d conds effs (some ss) none []]
            simp [h, hSs, hSs0]
          | some os =>
            have hos : sizeOf os ≤ n := by simp at hr; omega
            have hSs := ihSub ss hss (effects ++ runEffects d effs)
            have hSs0 := ihSub ss hss (runEffects d effs)
            have hOs := ihOne os hos
              (effects ++ (runEffects d effs ++ execSub d ss []))
            have hOs0 := ihOne os hos (runEffects d effs ++ execSub d ss [])
            rw [execRule_def d conds effs (some ss) (some os) effects,
              execRule_def d conds effs (some ss) (some os) []]
            simp [h, hSs, hSs0, hOs, hOs0]
      · rw [execRule_def d conds effs sub one effects,
          execRule_def d conds effs sub one []]
        simp [h]
    · cases rs with
      | nil => simp [execSub]
      | cons r rest =>
        have hhead : sizeOf r ≤ n := by simp at hrs; omega
        have htail : sizeOf rest ≤ n := by simp at hrs; omega
        have h2 : (execRule d r effects).2 = effects ++ (execRule d r []).2 := by
          rw [ihRule r hhead effects]
        have hr1 := ihSub rest htail (effects ++ (execRule d r []).2)
        have hr0 := ihSub rest htail ((execRule d r []).2)
        simp only [execSub, h2]
        rw [hr1, hr0]
        simp
    · cases rs with
      | nil => simp [execOneOf]
      | cons r rest =>
        have hhead : sizeOf r ≤ n := by simp at hrs; omega
        have htail : sizeOf rest ≤ n := by simp at hrs; omega
        have h1 : (execRule d r effects).1 = (execRule d r []).1 := by
          rw [ihRule r hhead effects]
        have h2 : (execRule d r effects).2 = effects ++ (execRule d r []).2 := by
          rw [ihRule r hhead effects]
        simp only [execOneOf, h1, h2]
        by_cases hm : (execRule d r []).1 = true
        · simp [hm]
        · have hr1 := ihOne rest htail (effects ++ (execRule d r []).2)
          have hr0 := ihOne rest htail ((execRule d r []).2)
          simp only [hm, if_false, Bool.false_eq_true]
          rw [hr1, hr0]
          simp

/-- `execRule` only ever appends to the effects array: its result on any
incoming array is the matched flag (independent of the array) and the
incoming array followed by what it produces from an empty array. -/
theorem execRule_append (d : EffectData) (r : CompiledRule) (effects : List Effect) :
    execRule d r effects = ((execRule d r []).1, effects ++ (execRule d r []).2) :=
  (execAppend_all d (sizeOf r)).1 r le_rfl effects

/-- The `rules` loop (and the top-level loop of `exec`) only ever
appends to the effects array. -/
theorem execSub_append (d : EffectData) (rs : List CompiledRule) (effects : List Effect) :
    execSub d rs effects = effects ++ execSub d rs [] :=
  (execAppend_all d (sizeOf rs)).2.1 rs le_rfl effects

/-- The `oneOf` loop only ever appends to the effects array. -/
theorem execOneOf_append (d : EffectData) (rs : List CompiledRule) (effects : List Effect) :
    execOneOf d rs effects = effects ++ execOneOf d rs [] :=
  (execAppend_all d (sizeOf rs)).2.2 rs le_rfl effects

/-- A condition passing in the sense of the condition loop, spelled out:
either the value resolves to something defined and the predicate accepts
it, or it is absent and `matchWhenEmpty` allows the rule to continue. -/
theorem condPasses_false_of_spelled (d : EffectData) (c : RuleCondition)
    (h : (resolveProperty d c.property = Value.undef ∧ c.matchWhenEmpty = false) ∨
      (resolveProperty d c.property ≠ Value.undef ∧
        c.fn (resolveProperty d c.property) = false)) :
    condPasses d c = false := by
  unfold condPasses
  rcases h with ⟨hu, hm⟩ | ⟨hu, hf⟩
  · rw [hu]
    exact hm
  · cases hv : resolveProperty d c.property with
    | undef => exact absurd hv hu
    | null => rw [hv] at hf; exact hf
    | boolV b => rw [hv] at hf; exact hf
    | numV n => rw [hv] at hf; exact hf
    | str s => rw [hv] at hf; exact hf
    | obj own proto => rw [hv] at hf; exact hf

/-- A failing condition after a passing prefix makes the whole condition
loop fail. -/
theorem checkConditions_split_false (d : EffectData) (pre post : List RuleCondition)
    (c : RuleCondition) (hpre : ∀ c0 ∈ pre, condPasses d c0 = true)
    (hfail : condPasses d c = false) :
    checkConditions d (pre ++ c :: post) = false := by
  induction pre with
  | nil => simp [checkConditions, hfail]
  | cons a rest ih =>
    have ha : condPasses d a = true := hpre a (by simp)
    simp only [List.cons_append, checkConditions, ha, if_true]
    exact ih (fun c0 hc0 => hpre c0 (by simp [hc0]))

/-- A rule whose own conditions fail contributes nothing and reports no
match. -/
theorem execRule_no_match (d : EffectData) (r : CompiledRule) (effects : List Effect)
    (h : checkConditions d r.conditions = false) :
    execRule d r effects = (false, effects) := by
  obtain ⟨conds, effs, sub, one⟩ := r
  simp only [CompiledRule.conditions] at h
  rw [execRule_def]
  simp [h]

/-- A rule whose own conditions pass reports a match. -/
theorem execRule_match (d : EffectData) (r : CompiledRule) (effects : List Effect)
    (h : checkConditions d r.conditions = true) :
    (execRule d r effects).1 = true := by
  obtain ⟨conds, effs, sub, one⟩ := r
  simp only [CompiledRule.conditions] at h
  rw [execRule_def]
  simp [h]

/-! ### Claim theorems for the executor -/

/-- C1: For every compiled rule, input record, and output effect list,
`execRule` evaluates the rule's conditions in declared order; at the
first condition whose resolved value is defined but fails its predicate,
or whose value is absent and whose `matchWhenEmpty` is false,
`execRule` returns false and leaves the output effect list unchanged (no
effects appended, no nested groups evaluated); an absent value with
`matchWhenEmpty` true continues to the next condition (such conditions
may occur in the passing prefix `pre`). -/
theorem execRule_first_failing_condition (d : EffectData)
    (pre post : List RuleCondition) (c : RuleCondition)
    (effs : List EffectEntry) (sub one : Option (List CompiledRule))
    (effects : List Effect)
    (hpre : ∀ c0 ∈ pre, condPasses d c0 = true)
    (hfail : (resolveProperty d c.property = Value.undef ∧ c.matchWhenEmpty = false) ∨
      (resolveProperty d c.property ≠ Value.undef ∧
        c.fn (resolveProperty d c.property) = false)) :
    execRule d (.mk (pre ++ c :: post) effs sub one) effects = (false, effects) := by
  have hc : condPasses d c = false := condPasses_false_of_spelled d c hfail
  rw [execRule_def]
  simp [checkConditions_split_false d pre post c hpre hc]

/-- C2: oneOf children are executed in declaration order; evaluation
stops after (keeping the effects of) the first child whose `execRule`
returns true; later siblings are never evaluated; if no child matches
nothing further is appended. -/
theorem execOneOf_first_match_wins (d : EffectData) (effects : List Effect) :
    (∀ pre (r : CompiledRule) post,
      (∀ r0 ∈ pre, checkConditions d r0.conditions = false) →
      checkConditions d r.conditions = true →
      execOneOf d (pre ++ r :: post) effects = (execRule d r effects).2) ∧
    (∀ rs : List CompiledRule,
      (∀ r0 ∈ rs, checkConditions d r0.conditions = false) →
      execOneOf d rs effects = effects) := by
  constructor
  · intro pre r post hpre hr
    induction pre generalizing effects with
    | nil =>
      simp only [List.nil_append, execOneOf]
      simp [execRule_match d r effects hr]
    | cons a rest ih =>
      have ha := execRule_no_match d a effects (hpre a (by simp))
      simp only [List.cons_append, execOneOf, ha]
      exact ih effects (fun r0 hr0 => hpre r0 (by simp [hr0]))
  · intro rs hall
    induction rs generalizing effects with
    | nil => rfl
    | cons a rest ih =>
      have ha := execRule_no_match d a effects (hall a (by simp))
      simp only [execOneOf, ha]
      exact ih effects (fun r0 hr0 => hall r0 (by simp [hr0]))

/-- C3: `execRule` returns true exactly when the rule's own conditions
all passed, independently of whether any nested `rules` group or `oneOf`
child matched (the groups `sub` and `one` do not appear on the right). -/
theorem execRule_matched_iff_own_conditions (d : EffectData)
    (conds : List RuleCondition) (effs : List EffectEntry)
    (sub one : Option (List CompiledRule)) (effects : List Effect) :
    (execRule d (.mk conds effs sub one) effects).1 = conds.all (condPasses d) := by
  rw [execRule_def, ← checkConditions_eq_all]
  by_cases h : checkConditions d conds = true
  · simp [h]
  · have h' : checkConditions d conds = false := by simpa using h
    simp [h']

/-- C4: `exec` runs `execRule` on every top-level rule in declaration
order, appending into one shared output sequence, no rule skipped; and
every child of a `rules` (subRules) group is executed unconditionally in
order, its effects appended to the same sequence, regardless of any
matching. -/
theorem exec_runs_every_rule (d : EffectData) :
    (∀ rules : List CompiledRule,
      exec rules d = (rules.map (fun r => (execRule d r []).2)).flatten) ∧
    (∀ (rs : List CompiledRule) (effects : List Effect),
      execSub d rs effects =
        effects ++ (rs.map (fun r => (execRule d r []).2)).flatten) := by
  have h2 : ∀ (rs : List CompiledRule) (effects : List Effect),
      execSub d rs effects =
        effects ++ (rs.map (fun r => (execRule d r []).2)).flatten := by
    intro rs
    induction rs with
    | nil => intro effects; simp [execSub]
    | cons r rest ih =>
      intro effects
      have hA : (execRule d r effects).2 = effects ++ (execRule d r []).2 := by
        rw [execRule_append d r effects]
      simp only [execSub, hA, ih]
      simp
  exact ⟨fun rules => by rw [exec, h2]; simp, h2⟩

/-- C10: property-path resolution is asymmetric — a multi-segment path
requires every step to be an own property (an inherited property counts
as absent, regardless of any further segments), whereas a single-segment
path uses the `in` operator, so an inherited property is visible and
resolves to its value. -/
theorem resolveProperty_own_vs_inherited (d : EffectData) (k : String) (v : Value)
    (hown : lookupProp d.own k = none)
    (hproto : lookupProp d.proto k = some v) :
    (∀ rest, walkPath (Value.obj d.own d.proto) (k :: rest) = Value.undef) ∧
    resolveProperty d (PropertyPath.multi [k]) = Value.undef ∧
    resolveProperty d (PropertyPath.single k) = v := by
  refine ⟨fun rest => ?_, ?_, ?_⟩
  · simp [walkPath, hown]
  · simp [resolveProperty, walkPath, hown]
  · simp [resolveProperty, EffectData.getJS, hown, hproto]

/-! ### Concrete witness data -/

/-- A concrete input record: own property `resource` with value "y". -/
def wData : EffectData := ⟨[("resource", Value.str "y")], []⟩

/-- A condition on an absent property with `matchWhenEmpty` true: the
condition loop continues past it. -/
def wCondEmptyOk : RuleCondition :=
  { property := .single "issuer", matchWhenEmpty := true, fn := fun _ => false }

/-- A condition `wData` fails: `resource` is defined but does not start
with "x". -/
def wCondFail : RuleCondition :=
  { property := .single "resource", matchWhenEmpty := false,
    fn := fun v => match v with | .str t => jsStartsWith t "x" | _ => false }

/-- A further condition that would pass, placed after the failing one. -/
def wCondAfter : RuleCondition :=
  { property := .single "resource", matchWhenEmpty := false, fn := fun _ => true }

def wEffectA : Effect := ⟨"use", Value.str "loader-a"⟩

def wEffect0 : Effect := ⟨"use", Value.str "pre-existing"⟩

/-- A condition-free child rule carrying one effect. -/
def wChild : CompiledRule := .mk [] [.eff wEffectA] none none

/-- A rule whose only condition fails on `wData`. -/
def wNoMatch : CompiledRule := .mk [wCondFail] [.eff wEffectA] none none

/-- Witness for C1: the first condition is absent with `matchWhenEmpty`
true (continue), the second is defined and fails its predicate, so the
rule returns false and appends nothing, skipping its effect and both
nested groups. -/
theorem execRule_first_failing_condition_witness :
    execRule wData
      (.mk [wCondEmptyOk, wCondFail, wCondAfter] [.eff wEffectA]
        (some [wChild]) (some [wChild])) [wEffect0] = (false, [wEffect0]) :=
  execRule_first_failing_condition wData [wCondEmptyOk] [wCondAfter] wCondFail
    [.eff wEffectA] (some [wChild]) (some [wChild]) [wEffect0]
    (by
      intro c0 hc0
      simp only [List.mem_singleton] at hc0
      subst hc0
      rfl)
    (Or.inr ⟨by
      simp [show resolveProperty wData wCondFail.property = Value.str "y" from rfl],
      rfl⟩)

/-- Witness for C2: the first oneOf child fails, the second matches and
its effects are kept, the third is never reached; and a oneOf group with
no matching child appends nothing. -/
theorem execOneOf_first_match_wins_witness :
    execOneOf wData ([wNoMatch] ++ wChild :: [wNoMatch]) [wEffect0] =
      (execRule wData wChild [wEffect0]).2 ∧
    execOneOf wData [wNoMatch] [wEffect0] = [wEffect0] :=
  ⟨(execOneOf_first_match_wins wData [wEffect0]).1 [wNoMatch] wChild [wNoMatch]
      (by
        intro r0 hr0
        simp only [List.mem_singleton] at hr0
        subst hr0
        rfl)
      rfl,
    (execOneOf_first_match_wins wData [wEffect0]).2 [wNoMatch]
      (by
        intro r0 hr0
        simp only [List.mem_singleton] at hr0
        subst hr0
        rfl)⟩

/-- A record with no own properties and an inherited `type` property. -/
def wData10 : EffectData := ⟨[], [("type", Value.str "module")]⟩

/-- Witness for C10: the inherited `type` property is invisible to a
multi-segment walk but visible to a single-segment lookup. -/
theorem resolveProperty_own_vs_inherited_witness :
    walkPath (Value.obj wData10.own wData10.proto) ["type", "x"] = Value.undef ∧
    resolveProperty wData10 (PropertyPath.multi ["type"]) = Value.undef ∧
    resolveProperty wData10 (PropertyPath.single "type") = Value.str "module" :=
  ⟨(resolveProperty_own_vs_inherited wData10 "type" (Value.str "module") rfl rfl).1
      ["x"],
    (resolveProperty_own_vs_inherited wData10 "type" (Value.str "module") rfl rfl).2.1,
    (resolveProperty_own_vs_inherited wData10 "type" (Value.str "module") rfl rfl).2.2⟩

/-! ### Claim theorems for the condition compiler -/

theorem jsStartsWith_go_iff (a : List Char) :
    ∀ b, jsStartsWith.go a b = true ↔ ∃ r, b = a ++ r := by
  induction a with
  | nil =>
    intro b
    simp [jsStartsWith.go]
  | cons x as ih =>
    intro b
    cases b with
    | nil =>
      simp only [jsStartsWith.go, List.cons_append]
      constructor
      · intro hfalse
        exact absurd hfalse (by simp)
      · rintro ⟨r, hr⟩
        exact List.noConfusion hr
    | cons y bs =>
      simp only [jsStartsWith.go, Bool.and_eq_true, beq_iff_eq, ih,
        List.cons_append, List.cons.injEq]
      constructor
      · rintro ⟨hxy, r, hr⟩
        exact ⟨r, hxy.symm, hr⟩
      · rintro ⟨r, hy, hbs⟩
        exact ⟨hy.symm, r, hbs⟩

/-- The string-prefix check agrees with string decomposition. -/
theorem jsStartsWith_iff (t S : String) :
    jsStartsWith t S = true ↔ ∃ r : String, t = S ++ r := by
  rw [jsStartsWith, jsStartsWith_go_iff]
  constructor
  · rintro ⟨rd, hrd⟩
    refine ⟨⟨rd⟩, ?_⟩
    apply String.ext
    simpa using hrd
  · rintro ⟨r, hr⟩
    refine ⟨r.data, ?_⟩
    rw [hr]
    simp

/-- C5: compiling a non-empty string S yields a condition whose
predicate holds on V exactly when V is a string starting with S (i.e. a
string of the form S ++ r), and whose `matchWhenEmpty` is false. -/
theorem compileCondition_nonempty_string (path S : String) (h : S ≠ "") :
    ∃ c, compileCondition path (RawCondition.str S) = Except.ok c ∧
      c.matchWhenEmpty = false ∧
      ∀ v, c.fn v = true ↔ ∃ t r, v = Value.str t ∧ t = S ++ r := by
  have hS : (S == "") = false := by
    simpa using h
  have hc : compileCondition path (RawCondition.str S) =
      Except.ok { matchWhenEmpty := S.length == 0,
                  fn := fun v =>
                    match v with | .str t => jsStartsWith t S | _ => false } := by
    rw [compileCondition]
    simp [hS]
  refine ⟨_, hc, ?_, ?_⟩
  · have hl : S.length ≠ 0 := by
      intro hl0
      apply h
      apply String.ext
      simpa using List.length_eq_zero.mp hl0
    simpa using hl
  · intro v
    cases v with
    | str t => simp [jsStartsWith_iff]
    | undef => simp
    | null => simp
    | boolV b => simp
    | numV n => simp
    | obj own proto => simp

/-- C6: the OR-combination of more than one compiled condition matches a
value exactly when at least one of them does, and its `matchWhenEmpty`
holds exactly when at least one of theirs does. -/
theorem combineConditionsOr_spec (cs : List Condition) (h : 1 < cs.length) :
    ((combineConditionsOr cs).matchWhenEmpty = true ↔
      ∃ c ∈ cs, c.matchWhenEmpty = true) ∧
    ∀ v, ((combineConditionsOr cs).fn v = true ↔ ∃ c ∈ cs, c.fn v = true) := by
  match cs with
  | [] => simp at h
  | [c] => simp at h
  | c1 :: c2 :: tl =>
    constructor
    · simp [combineConditionsOr, List.any_eq_true]
    · intro v
      simp [combineConditionsOr, List.any_eq_true]

/-- C7: the compiled condition for `{not: C}` matches V exactly when the
compiled condition for C does not, and its `matchWhenEmpty` is the
negation of that of C. -/
theorem compileCondition_not (path : String) (C : RawCondition) (c : Condition)
    (htruthy : C.truthy = true)
    (hc : compileCondition (path ++ ".not") C = Except.ok c) :
    ∃ c2, compileCondition path (RawCondition.cobj [("not", C)]) = Except.ok c2 ∧
      c2.matchWhenEmpty = !c.matchWhenEmpty ∧ ∀ v, c2.fn v = !c.fn v := by
  refine ⟨{ matchWhenEmpty := !c.matchWhenEmpty, fn := fun v => !c.fn v }, ?_,
    rfl, fun v => rfl⟩
  have hobj : compileObjEntries path [("not", C)] =
      Except.ok [{ matchWhenEmpty := !c.matchWhenEmpty, fn := fun v => !c.fn v }] := by
    cases C with
    | str s =>
      rw [compileObjEntries]
      all_goals simp [htruthy, hc, compileObjEntries]
    | numC n =>
      rw [compileObjEntries]
      all_goals simp [htruthy, hc, compileObjEntries]
    | boolC b =>
      rw [compileObjEntries]
      all_goals simp [htruthy, hc, compileObjEntries]
    | nullC => exact absurd htruthy (by decide)
    | fnC f =>
      rw [compileObjEntries]
      all_goals simp [htruthy, hc, compileObjEntries]
    | regexC test =>
      rw [compileObjEntries]
      all_goals simp [htruthy, hc, compileObjEntries]
    | arr items =>
      rw [compileObjEntries]
      all_goals simp [htruthy, hc, compileObjEntries]
    | cobj entries =>
      rw [compileObjEntries]
      all_goals simp [htruthy, hc, compileObjEntries]
  rw [compileCondition, hobj]
  simp [combineConditionsAnd]

/-- C8: OR-combining or AND-combining a one-element condition list
returns the sole condition itself, unchanged (its `matchWhenEmpty` is
preserved exactly, not re-derived). -/
theorem combine_singleton_unchanged (c : Condition) :
    combineConditionsOr [c] = c ∧ combineConditionsAnd [c] = c :=
  ⟨rfl, rfl⟩

/-- An OR input whose `matchWhenEmpty` is false. -/
def wCondA : Condition :=
  { matchWhenEmpty := false,
    fn := fun v => match v with | .str t => t == "a" | _ => false }

/-- An OR input whose `matchWhenEmpty` is true and whose predicate
always fails. -/
def wCondB : Condition := { matchWhenEmpty := true, fn := fun _ => false }

/-- Witness for C5 at S = "x". -/
theorem compileCondition_nonempty_string_witness :
    ("x" : String) ≠ "" ∧
    (∃ c, compileCondition "ruleSet[0].test" (RawCondition.str "x") = Except.ok c ∧
      c.matchWhenEmpty = false ∧
      ∀ v, c.fn v = true ↔ ∃ t r, v = Value.str t ∧ t = "x" ++ r) :=
  ⟨by decide, compileCondition_nonempty_string "ruleSet[0].test" "x" (by decide)⟩

/-- Witness for C6 at a concrete two-element condition list. -/
theorem combineConditionsOr_spec_witness :
    1 < ([wCondA, wCondB] : List Condition).length ∧
    ((combineConditionsOr [wCondA, wCondB]).matchWhenEmpty = true ↔
      ∃ c ∈ [wCondA, wCondB], c.matchWhenEmpty = true) ∧
    ((combineConditionsOr [wCondA, wCondB]).fn (Value.str "a") = true ↔
      ∃ c ∈ [wCondA, wCondB], c.fn (Value.str "a") = true) :=
  ⟨by decide,
    (combineConditionsOr_spec [wCondA, wCondB] (by decide)).1,
    (combineConditionsOr_spec [wCondA, wCondB] (by decide)).2 (Value.str "a")⟩

/-- The compiled condition for the raw string "x". -/
def wStrXCond : Condition :=
  { matchWhenEmpty := false,
    fn := fun v => match v with | .str t => jsStartsWith t "x" | _ => false }

/-- Witness for C7 at C = "x". -/
theorem compileCondition_not_witness :
    RawCondition.truthy (.str "x") = true ∧
    compileCondition ("p" ++ ".not") (RawCondition.str "x") = Except.ok wStrXCond ∧
    (∃ c2, compileCondition "p" (RawCondition.cobj [("not", .str "x")]) =
        Except.ok c2 ∧
      c2.matchWhenEmpty = !wStrXCond.matchWhenEmpty ∧
      ∀ v, c2.fn v = !wStrXCond.fn v) :=
  ⟨rfl, by rw [compileCondition]; rfl,
    compileCondition_not "p" (.str "x") wStrXCond rfl
      (by rw [compileCondition]; rfl)⟩

/-! ### Claim theorem for the rule compiler error handling -/

/-- C9: for every raw rule whose unhandled `rules` key holds a non-array
value, compilation raises a compile error whose message is
"Rule.rules must be an array of rules" (with no registered plugins the
unhandled set is exactly the set of defined keys). -/
theorem compileRule_rules_not_array (path : String) (rule : RawRule)
    (refs : References)
    (hmem : rule.definedKeys.contains "rules" = true)
    (hnot : (rule.get "rules").isArray = false) :
    compileRule noHook path rule refs =
      Except.error ⟨path, (rule.get "rules").display,
        "Rule.rules must be an array of rules"⟩ := by
  rw [compileRule]
  cases hv : rule.get "rules" with
  | arrV entries =>
    rw [hv] at hnot
    simp [RawRuleVal.isArray] at hnot
  | undef =>
    simp only [noHook, hv, RawRuleVal.display]
    split <;> rename_i heq <;> rw [if_pos hmem] at heq
    · injection heq with h
      rw [← h]
    · simp at heq
  | falsyV =>
    simp only [noHook, hv, RawRuleVal.display]
    split <;> rename_i heq <;> rw [if_pos hmem] at heq
    · injection heq with h
      rw [← h]
    · simp at heq
  | strV s =>
    simp only [noHook, hv, RawRuleVal.display]
    split <;> rename_i heq <;> rw [if_pos hmem] at heq
    · injection heq with h
      rw [← h]
    · simp at heq
  | otherV =>
    simp only [noHook, hv, RawRuleVal.display]
    split <;> rename_i heq <;> rw [if_pos hmem] at heq
    · injection heq with h
      rw [← h]
    · simp at heq

/-- The offending raw rule of `[{rules: "not-an-array"}]`. -/
def wRule9 : RawRule := .mk [("rules", RawRuleVal.strV "not-an-array")]

/-- Witness for C9 at the concrete rule `{rules: "not-an-array"}`,
together with the same error surfacing from the rule-list entry point. -/
theorem compileRule_rules_not_array_witness :
    wRule9.definedKeys.contains "rules" = true ∧
    (wRule9.get "rules").isArray = false ∧
    compileRule noHook "ruleSet[0]" wRule9 [] =
      Except.error ⟨"ruleSet[0]", "not-an-array",
        "Rule.rules must be an array of rules"⟩ ∧
    compileRules noHook [RawRuleEntry.rule wRule9] =
      Except.error ⟨"ruleSet[0]", "not-an-array",
        "Rule.rules must be an array of rules"⟩ :=
  ⟨rfl, rfl,
    compileRule_rules_not_array "ruleSet[0]" wRule9 [] rfl rfl,
    by
      rw [compileRules, compileRulesGo,
        compileRule_rules_not_array ("ruleSet" ++ "[" ++ toString 0 ++ "]")
          wRule9 [] rfl rfl]
      rfl⟩
